import Mathlib

/-!
Verification of the `test_with_parameters` procedural attribute
(`src/src/lib.rs`), a compile-time expander that turns one parameterized
test function plus a bracketed argument table into one generated nullary
test function per table row.

Shallow embedding conventions:
* The attribute payload token stream is a list of top-level token trees
  `RTok`.  A square-bracket-delimited group is `RTok.grp span inner`
  (carrying an abstract source span as a `Nat`); any other top-level
  token tree is kept so that the parser's rejection of it is observable.
* Inside a bracket group, a token tree `Tok` is a comma punct, an
  identifier, or an opaque `atom` standing for any other single token
  tree (a literal, another punct, or a nested delimited group — commas
  inside a nested group live inside its tree and are invisible at this
  level, exactly as in `proc_macro` token streams).
* An expression, as produced by the underlying expression grammar, is
  the run of token trees it consumed (`Expr := List Tok`).
  Well-formedness of an individual expression is delegated to that
  underlying grammar (as the source does via `syn::Expr::parse`); the
  fact the table parser relies on is that one parsed expression is a
  nonempty token run with no top-level comma, which is how it is
  modelled here.
* `syn`'s `Punctuated::parse_terminated` (comma separated, optional
  trailing comma) is `parseTerminated`.
* The macro output token stream is modelled structurally as a list of
  `OutItem`: the re-emitted original function, generated `#[test]` case
  functions, a `compile_error!` invocation carrying its span and
  message, or the compile error produced by `syn` itself for malformed
  table syntax (whose message the source delegates to `syn`).
* Spans: the span attached to a parsed header / row is the span of its
  bracket group, standing in for `Punctuated::span` of its contents;
  both denote the source location of that table section.
-/

/-- A token tree inside a bracket group: a comma punct, an identifier,
or an opaque other token tree (literal, other punct, nested delimited
group, ...). -/
inductive Tok where
  | comma : Tok
  | ident : String → Tok
  | atom : String → Tok
deriving DecidableEq, Repr

/-- A top-level token tree of the attribute payload: a square-bracket
group with a span and its contents, or any other token tree. -/
inductive RTok where
  | grp : Nat → List Tok → RTok
  | comma : RTok
  | ident : String → RTok
  | atom : String → RTok
deriving DecidableEq, Repr

/-- An expression is the (opaque) run of token trees the underlying
expression grammar consumed for it. -/
abbrev Expr := List Tok

/-- A function parameter (`syn::FnArg`), kept opaque as its token run:
the source only counts parameters, never inspects them. -/
abbrev Param := List Tok

/-- The target function (`syn::ItemFn`): its name, its parameter list
and its remaining tokens (body etc.), re-emitted verbatim. -/
structure ItemFn where
  ident : String
  inputs : List Param
  body : List Tok
deriving DecidableEq, Repr

/-- A parsed value together with the source span it is attributed to. -/
structure Spanned (α : Type) where
  val : α
  span : Nat
deriving DecidableEq, Repr

/-- The parsed attribute payload (struct `TableSyntax` in the source):
the column-name header and the list of rows. -/
structure TableStx where
  column_names : Spanned (List String)
  test_inputs : List (Spanned (List Expr))
deriving DecidableEq, Repr

/-- `true` exactly on the comma punct. -/
def Tok.isComma : Tok → Bool
  | .comma => true
  | _ => false

/-- Split a token run at its top-level commas (commas nested inside
delimited groups are inside `atom` trees and do not split).  Always
returns a nonempty list of segments; a trailing comma yields a trailing
`[]`. -/
def splitTop : List Tok → List (List Tok)
  | [] => [[]]
  | Tok.comma :: ts => [] :: splitTop ts
  | t :: ts =>
    match splitTop ts with
    | [] => [[t]]
    | s :: ss => (t :: s) :: ss

/-- Parse every segment of a comma-split token run with the element
parser `p`, in order, failing if any segment fails. -/
def parseSegs (p : List Tok → Option α) : List (List Tok) → Option (List α)
  | [] => some []
  | s :: ss => do
    let a ← p s
    let as ← parseSegs p ss
    pure (a :: as)

/-- `syn`'s `Punctuated::parse_terminated` over an element parser `p`:
comma-separated elements, a single optional trailing comma, empty input
yields the empty list. -/
def parseTerminated (p : List Tok → Option α) (ts : List Tok) : Option (List α) :=
  if ts = [] then some []
  else
    parseSegs p
      (if (splitTop ts).getLast? = some [] then (splitTop ts).dropLast
       else splitTop ts)

/-- `syn::Ident::parse` as an element of a punctuated list: the segment
must be exactly one identifier token. -/
def identElem : List Tok → Option String
  | [Tok.ident s] => some s
  | _ => none

/-- `syn::Expr::parse` as an element of a punctuated list: delegated to
the underlying expression grammar, modelled as accepting any nonempty
token run (a single expression has no top-level comma, so the segment
is exactly the expression's tokens). -/
def exprElem (ts : List Tok) : Option Expr :=
  if ts = [] then none else some ts

/-- The row-parsing loop of `TableSyntax::parse`: repeatedly consume
one square-bracket group per row (`syn::bracketed!` then
`parse_terminated(Expr::parse)`) until the input is exhausted; any
other leading token is a syntax error. -/
def parseRows : List RTok → Option (List (Spanned (List Expr)))
  | [] => some []
  | RTok.grp sp inner :: rest => do
    let args ← parseTerminated exprElem inner
    let rows ← parseRows rest
    pure (⟨args, sp⟩ :: rows)
  | _ => none

/-- `TableSyntax::parse`: one square-bracket group of comma-separated
identifiers (the column names), then one group per row until the input
is exhausted. -/
def TableStx.parse : List RTok → Option TableStx
  | RTok.grp sp inner :: rest => do
    let names ← parseTerminated identElem inner
    let rows ← parseRows rest
    pure ⟨⟨names, sp⟩, rows⟩
  | _ => none

/-- The body of an emitted function: either the original function's
opaque body, re-emitted verbatim, or the single statement
`target(args...)` that a generated case function consists of (the
call's result is not captured). -/
inductive Body where
  | orig : List Tok → Body
  | call : String → List Expr → Body
deriving DecidableEq, Repr

/-- A function item in the macro output: whether it carries the
`#[test]` attribute, its name, its parameter list and its body. -/
structure OutFn where
  testAttr : Bool
  name : String
  params : List Param
  body : Body
deriving DecidableEq, Repr

/-- One item of the output token stream: a function item, a
`compile_error!(msg)` invocation spanned to a table section
(`quote_spanned!` in the source), or the compile error emitted by
`syn::parse_macro_input!` itself on malformed table syntax (message
delegated to `syn`). -/
inductive OutItem where
  | fn : OutFn → OutItem
  | compileError : Nat → String → OutItem
  | parseError : OutItem
deriving DecidableEq, Repr

/-- `true` exactly on the two error-carrying output items. -/
def OutItem.isError : OutItem → Bool
  | .compileError _ _ => true
  | .parseError => true
  | .fn _ => false

/-- One generated case (the closure in the source's
`test_inputs.into_iter().enumerate().map(...)`): a `#[test]`-tagged
nullary function named `<target>_case<idx>` whose body is the single
call `target(args...)`. -/
def genCase (fnIdent : String) (idx : Nat) (args : List Expr) : OutItem :=
  OutItem.fn ⟨true, fnIdent ++ "_case" ++ toString idx, [], Body.call fnIdent args⟩

/-- The re-emitted original function item (`#test_fn` in the output
quote): unmodified and carrying no `#[test]` attribute. -/
def origItem (test_fn : ItemFn) : OutItem :=
  OutItem.fn ⟨false, test_fn.ident, test_fn.inputs, Body.orig test_fn.body⟩

/-- The procedural attribute `test_with_parameters`: parse the
attribute payload as a table, check the header length against the
function's arity, check each row's length in order, and on success emit
the original function followed by one generated `#[test]` case per
row.  Every failure is emitted as output (a `compile_error!` item or a
`syn` parse error), never through a side channel. -/
def test_with_parameters (attr : List RTok) (test_fn : ItemFn) : List OutItem :=
  match TableStx.parse attr with
  | none => [OutItem.parseError]
  | some t =>
    if t.column_names.val.length ≠ test_fn.inputs.length then
      [OutItem.compileError t.column_names.span
        "Number of parameters does not match the test function's arity."]
    else
      match t.test_inputs.find? (fun args => args.val.length != test_fn.inputs.length) with
      | some args =>
        [OutItem.compileError args.span "This case has the wrong number of arguments."]
      | none =>
        origItem test_fn ::
          t.test_inputs.enum.map (fun p => genCase test_fn.ident p.1 p.2.val)

/-! ### Parser lemmas -/

theorem splitTop_ne_nil : ∀ ts : List Tok, splitTop ts ≠ []
  | [] => by simp [splitTop]
  | Tok.comma :: ts => by simp [splitTop]
  | Tok.ident s :: ts => by
    simp only [splitTop]
    cases splitTop ts <;> simp
  | Tok.atom s :: ts => by
    simp only [splitTop]
    cases splitTop ts <;> simp

theorem splitTop_append_comma (ts : List Tok) :
    splitTop (ts ++ [Tok.comma]) = splitTop ts ++ [[]] := by
  induction ts with
  | nil => simp [splitTop]
  | cons t ts ih =>
    cases t with
    | comma =>
      simp only [List.cons_append, splitTop, List.append_eq]
      rw [ih]
    | ident s =>
      simp only [List.cons_append, splitTop, List.append_eq]
      rw [ih]
      cases h : splitTop ts with
      | nil => exact absurd h (splitTop_ne_nil ts)
      | cons a l => simp
    | atom s =>
      simp only [List.cons_append, splitTop, List.append_eq]
      rw [ih]
      cases h : splitTop ts with
      | nil => exact absurd h (splitTop_ne_nil ts)
      | cons a l => simp

theorem splitTop_getLast_ne_nil (ts : List Tok) (h1 : ts ≠ [])
    (h2 : ts.getLast? ≠ some Tok.comma) : (splitTop ts).getLast? ≠ some [] := by
  induction ts with
  | nil => exact absurd rfl h1
  | cons t ts ih =>
    cases ts with
    | nil =>
      cases t with
      | comma => exact absurd rfl h2
      | ident s => simp [splitTop]
      | atom s => simp [splitTop]
    | cons u us =>
      have hne : u :: us ≠ ([] : List Tok) := by simp
      have h2' : (u :: us).getLast? ≠ some Tok.comma := by
        rwa [List.getLast?_cons_cons] at h2
      have ihh := ih hne h2'
      cases t with
      | comma =>
        simp only [splitTop]
        cases hs : splitTop (u :: us) with
        | nil => exact absurd hs (splitTop_ne_nil _)
        | cons a l => rw [hs] at ihh; simpa using ihh
      | ident s =>
        simp only [splitTop]
        cases hs : splitTop (u :: us) with
        | nil => exact absurd hs (splitTop_ne_nil _)
        | cons a l =>
          rw [hs] at ihh
          cases l with
          | nil => simp
          | cons b bs => simpa using ihh
      | atom s =>
        simp only [splitTop]
        cases hs : splitTop (u :: us) with
        | nil => exact absurd hs (splitTop_ne_nil _)
        | cons a l =>
          rw [hs] at ihh
          cases l with
          | nil => simp
          | cons b bs => simpa using ihh

theorem splitTop_of_comma_not_mem (ts : List Tok) (h1 : ts ≠ [])
    (h2 : Tok.comma ∉ ts) : splitTop ts = [ts] := by
  induction ts with
  | nil => exact absurd rfl h1
  | cons t ts ih =>
    have ht : t ≠ Tok.comma := fun he => h2 (he ▸ List.mem_cons_self t ts)
    have h2' : Tok.comma ∉ ts := fun hm => h2 (List.mem_cons_of_mem t hm)
    cases ts with
    | nil =>
      cases t with
      | comma => exact absurd rfl ht
      | ident s => simp [splitTop]
      | atom s => simp [splitTop]
    | cons u us =>
      have ihh := ih (by simp) h2'
      cases t with
      | comma => exact absurd rfl ht
      | ident s => simp only [splitTop]; rw [ihh]
      | atom s => simp only [splitTop]; rw [ihh]

/-- `parse_terminated` accepts one trailing comma: appending a comma to
a nonempty element list that does not already end in a comma parses to
the same result. -/
theorem parseTerminated_append_comma {α : Type} (p : List Tok → Option α)
    (ts : List Tok) (xs : List α) (h1 : ts ≠ [])
    (h2 : ts.getLast? ≠ some Tok.comma)
    (h3 : parseTerminated p ts = some xs) :
    parseTerminated p (ts ++ [Tok.comma]) = some xs := by
  have hlast := splitTop_getLast_ne_nil ts h1 h2
  rw [parseTerminated, if_neg h1, if_neg hlast] at h3
  rw [parseTerminated, if_neg (by simp), splitTop_append_comma]
  rw [if_pos (by simp), List.dropLast_concat]
  exact h3

/-- The row loop consumes exactly one bracket group per row, in order,
with nothing between groups. -/
theorem option_bind_some_cons {α : Type} (c : α) (x : Option (List α)) :
    x.bind (fun rows => some (c :: rows)) = x.map (fun rows => c :: rows) := by
  cases x <;> rfl

theorem parseRows_map_grp (gs : List (Nat × List Tok)) :
    parseRows (gs.map (fun g => RTok.grp g.1 g.2)) =
      gs.foldr (fun g acc =>
        (parseTerminated exprElem g.2).bind (fun es =>
          acc.map (fun rows => ⟨es, g.1⟩ :: rows))) (some []) := by
  induction gs with
  | nil => simp [parseRows]
  | cons g gs ih =>
    simp only [List.map_cons, parseRows, List.foldr_cons, ih]
    cases parseTerminated exprElem g.2 with
    | none => rfl
    | some es => simp [option_bind_some_cons]

/-- A separator token between the header group and the row groups (or
between two row groups) is rejected. -/
theorem parse_comma_separator (sp : Nat) (h : List Tok) (rest : List RTok) :
    TableStx.parse (RTok.grp sp h :: RTok.comma :: rest) = none := by
  simp only [TableStx.parse, parseRows]
  cases parseTerminated identElem h <;> simp

/-- `find?` returns the element at the first index satisfying the
predicate. -/
theorem find?_eq_some_of_first {α : Type} (p : α → Bool) (l : List α) :
    ∀ (i : Nat) (a : α), l[i]? = some a → p a = true →
      (∀ j b, j < i → l[j]? = some b → p b = false) →
      l.find? p = some a := by
  induction l with
  | nil => intro i a ha _ _; simp at ha
  | cons x l ih =>
    intro i a ha hp hfirst
    cases i with
    | zero =>
      simp only [List.getElem?_cons_zero, Option.some.injEq] at ha
      subst ha
      exact List.find?_cons_of_pos _ hp
    | succ i =>
      have hx : p x = false := hfirst 0 x (Nat.succ_pos i) (by simp)
      rw [List.find?_cons_of_neg _ (by simp [hx])]
      exact ih i a (by simpa using ha) hp
        (fun j b hj hb => hfirst (j + 1) b (by omega) (by simpa using hb))

/-- Core expansion lemma: on a table whose header and rows all match
the function's arity, the macro emits the original function followed by
one generated case per row, in table order. -/
theorem twp_valid (attr : List RTok) (f : ItemFn) (t : TableStx)
    (hp : TableStx.parse attr = some t)
    (hc : t.column_names.val.length = f.inputs.length)
    (hr : ∀ r ∈ t.test_inputs, r.val.length = f.inputs.length) :
    test_with_parameters attr f =
      origItem f ::
        t.test_inputs.enum.map (fun p => genCase f.ident p.1 p.2.val) := by
  have hfind :
      t.test_inputs.find? (fun args => args.val.length != f.inputs.length) = none := by
    rw [List.find?_eq_none]
    intro x hx
    simp [hr x hx]
  simp only [test_with_parameters, hp, hfind, if_neg (by simp [hc] :
    ¬ t.column_names.val.length ≠ f.inputs.length)]

/-- On malformed table syntax the macro's output is the `syn` parse
error (`parse_macro_input!` returns the error as output tokens). -/
theorem twp_parse_none (attr : List RTok) (f : ItemFn)
    (hp : TableStx.parse attr = none) :
    test_with_parameters attr f = [OutItem.parseError] := by
  simp only [test_with_parameters, hp]

/-- On a header whose length differs from the function's arity the
output is the single spanned `compile_error!`. -/
theorem twp_header_mismatch (attr : List RTok) (f : ItemFn) (t : TableStx)
    (hp : TableStx.parse attr = some t)
    (hc : t.column_names.val.length ≠ f.inputs.length) :
    test_with_parameters attr f =
      [OutItem.compileError t.column_names.span
        "Number of parameters does not match the test function's arity."] := by
  simp only [test_with_parameters, hp, if_pos hc]

/-- When the row scan finds a mismatching row the output is the single
spanned `compile_error!` for that row. -/
theorem twp_find_bad (attr : List RTok) (f : ItemFn) (t : TableStx)
    (hp : TableStx.parse attr = some t)
    (hc : t.column_names.val.length = f.inputs.length)
    (r : Spanned (List Expr))
    (hf : t.test_inputs.find?
      (fun args => args.val.length != f.inputs.length) = some r) :
    test_with_parameters attr f =
      [OutItem.compileError r.span
        "This case has the wrong number of arguments."] := by
  simp only [test_with_parameters, hp, hf, if_neg (by simp [hc] :
    ¬ t.column_names.val.length ≠ f.inputs.length)]

/-- Row-mismatch lemma in first-bad-row form: if row `i` mismatches the
arity and every row before it matches, the output is the single spanned
`compile_error!` for row `i`. -/
theorem twp_row_mismatch (attr : List RTok) (f : ItemFn) (t : TableStx)
    (hp : TableStx.parse attr = some t)
    (hc : t.column_names.val.length = f.inputs.length)
    (i : Nat) (r : Spanned (List Expr))
    (hr : t.test_inputs[i]? = some r)
    (hbad : r.val.length ≠ f.inputs.length)
    (hfirst : ∀ r' ∈ t.test_inputs.take i, r'.val.length = f.inputs.length) :
    test_with_parameters attr f =
      [OutItem.compileError r.span
        "This case has the wrong number of arguments."] := by
  refine twp_find_bad attr f t hp hc r ?_
  refine find?_eq_some_of_first _ _ i r hr (by simp [hbad]) ?_
  intro j b hj hb
  have hbmem : b ∈ t.test_inputs.take i := by
    have h2 : (t.test_inputs.take i)[j]? = some b := by
      rw [List.getElem?_take, if_pos hj]
      exact hb
    rcases List.getElem?_eq_some.mp h2 with ⟨hlt, hget⟩
    exact hget ▸ List.getElem_mem hlt
  simp [hfirst b hbmem]

/-! ### Concrete inputs for the witness theorems -/

/-- The spec's example table: header `[input, expected]`, rows
`[(1, 1), 2]` and `[(2, 2), 4]`. -/
def wAttr : List RTok :=
  [RTok.grp 10 [Tok.ident "input", Tok.comma, Tok.ident "expected"],
   RTok.grp 11 [Tok.atom "(1, 1)", Tok.comma, Tok.atom "2"],
   RTok.grp 12 [Tok.atom "(2, 2)", Tok.comma, Tok.atom "4"]]

/-- The spec's example target function `add_works`, with two
parameters. -/
def wFn : ItemFn :=
  ⟨"add_works", [[Tok.ident "input"], [Tok.ident "expected"]],
   [Tok.atom "assert_eq"]⟩

/-- The parse of `wAttr`. -/
def wTable : TableStx :=
  ⟨⟨["input", "expected"], 10⟩,
   [⟨[[Tok.atom "(1, 1)"], [Tok.atom "2"]], 11⟩,
    ⟨[[Tok.atom "(2, 2)"], [Tok.atom "4"]], 12⟩]⟩

/-- A header of one name against the two-parameter `wFn`, with a row
that individually matches the arity. -/
def wAttrHdr : List RTok :=
  [RTok.grp 5 [Tok.ident "a"],
   RTok.grp 6 [Tok.atom "1", Tok.comma, Tok.atom "2"]]

/-- The parse of `wAttrHdr`. -/
def wTableHdr : TableStx :=
  ⟨⟨["a"], 5⟩, [⟨[[Tok.atom "1"], [Tok.atom "2"]], 6⟩]⟩

/-- A correct header with a good row, then a first bad row (index 1),
then another bad row after it. -/
def wAttrRow : List RTok :=
  [RTok.grp 20 [Tok.ident "a", Tok.comma, Tok.ident "b"],
   RTok.grp 21 [Tok.atom "1", Tok.comma, Tok.atom "2"],
   RTok.grp 22 [Tok.atom "1"],
   RTok.grp 23 []]

/-- The parse of `wAttrRow`. -/
def wTableRow : TableStx :=
  ⟨⟨["a", "b"], 20⟩,
   [⟨[[Tok.atom "1"], [Tok.atom "2"]], 21⟩,
    ⟨[[Tok.atom "1"]], 22⟩,
    ⟨[], 23⟩]⟩

/-- A header-only table (zero rows) matching the two-parameter
`wFn`. -/
def wAttrZero : List RTok :=
  [RTok.grp 30 [Tok.ident "a", Tok.comma, Tok.ident "b"]]

/-- The parse of `wAttrZero`. -/
def wTableZero : TableStx := ⟨⟨["a", "b"], 30⟩, []⟩

/-! ### The claims -/

/-- Claim C1: for every valid table (header length and every row length
equal to the function's parameter count), the generated nullary
function for row index `i` has as its entire body a single call to the
original test function, passing row `i`'s expressions in order as
positional arguments. -/
theorem C1_argument_forwarding (attr : List RTok) (f : ItemFn)
    (t : TableStx) (hp : TableStx.parse attr = some t)
    (hc : t.column_names.val.length = f.inputs.length)
    (hr : ∀ r ∈ t.test_inputs, r.val.length = f.inputs.length)
    (i : Nat) (r : Spanned (List Expr))
    (hi : t.test_inputs[i]? = some r) :
    (test_with_parameters attr f)[i + 1]? =
      some (OutItem.fn ⟨true, f.ident ++ "_case" ++ toString i, [],
        Body.call f.ident r.val⟩) := by
  rw [twp_valid attr f t hp hc hr]
  rw [List.getElem?_cons_succ, List.getElem?_map, List.getElem?_enum, hi]
  rfl

/-- Witness for C1 on the spec's example: case 0 calls `add_works`
with row 0's two expressions in order. -/
theorem C1_witness :
    TableStx.parse wAttr = some wTable ∧
    wTable.column_names.val.length = wFn.inputs.length ∧
    (∀ r ∈ wTable.test_inputs, r.val.length = wFn.inputs.length) ∧
    wTable.test_inputs[0]? = some ⟨[[Tok.atom "(1, 1)"], [Tok.atom "2"]], 11⟩ ∧
    (test_with_parameters wAttr wFn)[0 + 1]? =
      some (OutItem.fn ⟨true, wFn.ident ++ "_case" ++ toString 0, [],
        Body.call wFn.ident [[Tok.atom "(1, 1)"], [Tok.atom "2"]]⟩) :=
  ⟨by decide, by decide, by decide, by decide,
    C1_argument_forwarding wAttr wFn wTable (by decide) (by decide) (by decide)
      0 ⟨[[Tok.atom "(1, 1)"], [Tok.atom "2"]], 11⟩ (by decide)⟩

/-- Claim C2: for every valid table, the generated function for the
row at zero-based index `i` (in table order) is named by appending
`_case` and the decimal index `i` to the original function's name. -/
theorem C2_naming (attr : List RTok) (f : ItemFn)
    (t : TableStx) (hp : TableStx.parse attr = some t)
    (hc : t.column_names.val.length = f.inputs.length)
    (hr : ∀ r ∈ t.test_inputs, r.val.length = f.inputs.length)
    (i : Nat) (r : Spanned (List Expr))
    (hi : t.test_inputs[i]? = some r) :
    ∃ c : OutFn, (test_with_parameters attr f)[i + 1]? = some (OutItem.fn c) ∧
      c.name = f.ident ++ "_case" ++ toString i := by
  refine ⟨⟨true, f.ident ++ "_case" ++ toString i, [], Body.call f.ident r.val⟩,
    ?_, rfl⟩
  rw [twp_valid attr f t hp hc hr]
  rw [List.getElem?_cons_succ, List.getElem?_map, List.getElem?_enum, hi]
  rfl

/-- Witness for C2 on the spec's example: the generated function at
row index 1 is named `add_works_case1`. -/
theorem C2_witness :
    TableStx.parse wAttr = some wTable ∧
    wTable.column_names.val.length = wFn.inputs.length ∧
    (∀ r ∈ wTable.test_inputs, r.val.length = wFn.inputs.length) ∧
    wTable.test_inputs[1]? = some ⟨[[Tok.atom "(2, 2)"], [Tok.atom "4"]], 12⟩ ∧
    ∃ c : OutFn, (test_with_parameters wAttr wFn)[1 + 1]? = some (OutItem.fn c) ∧
      c.name = wFn.ident ++ "_case" ++ toString 1 :=
  ⟨by decide, by decide, by decide, by decide,
    C2_naming wAttr wFn wTable (by decide) (by decide) (by decide)
      1 ⟨[[Tok.atom "(2, 2)"], [Tok.atom "4"]], 12⟩ (by decide)⟩

/-- Claim C3: for every table whose header length equals the
function's parameter count and whose rows all have that length,
expansion succeeds with no validation error and the output is exactly
the original function followed by one generated function per row. -/
theorem C3_row_count (attr : List RTok) (f : ItemFn)
    (t : TableStx) (hp : TableStx.parse attr = some t)
    (hc : t.column_names.val.length = f.inputs.length)
    (hr : ∀ r ∈ t.test_inputs, r.val.length = f.inputs.length) :
    (test_with_parameters attr f).length = t.test_inputs.length + 1 ∧
    (test_with_parameters attr f).head? = some (origItem f) ∧
    ∀ o ∈ test_with_parameters attr f, o.isError = false := by
  rw [twp_valid attr f t hp hc hr]
  refine ⟨by simp, rfl, ?_⟩
  intro o ho
  rcases List.mem_cons.mp ho with h | h
  · subst h; rfl
  · rcases List.mem_map.mp h with ⟨q, _, hqo⟩
    subst hqo; rfl

/-- Witness for C3 on the spec's example: three output items (original
plus two cases), headed by the original, none an error. -/
theorem C3_witness :
    TableStx.parse wAttr = some wTable ∧
    wTable.column_names.val.length = wFn.inputs.length ∧
    (∀ r ∈ wTable.test_inputs, r.val.length = wFn.inputs.length) ∧
    ((test_with_parameters wAttr wFn).length = wTable.test_inputs.length + 1 ∧
      (test_with_parameters wAttr wFn).head? = some (origItem wFn) ∧
      ∀ o ∈ test_with_parameters wAttr wFn, o.isError = false) :=
  ⟨by decide, by decide, by decide,
    C3_row_count wAttr wFn wTable (by decide) (by decide) (by decide)⟩

/-- Claim C4: whenever the column-name-list length differs from the
function's parameter count, expansion emits a failure attributed to
the column-name list's source span with the fixed arity message, with
no row validation and no code generation, regardless of row
contents. -/
theorem C4_header_arity (attr : List RTok) (f : ItemFn)
    (t : TableStx) (hp : TableStx.parse attr = some t)
    (hc : t.column_names.val.length ≠ f.inputs.length) :
    test_with_parameters attr f =
      [OutItem.compileError t.column_names.span
        "Number of parameters does not match the test function's arity."] :=
  twp_header_mismatch attr f t hp hc

/-- Witness for C4: a one-name header against the two-parameter `wFn`,
with a row that individually matches the arity; the sole output is the
header-spanned error. -/
theorem C4_witness :
    TableStx.parse wAttrHdr = some wTableHdr ∧
    wTableHdr.column_names.val.length ≠ wFn.inputs.length ∧
    test_with_parameters wAttrHdr wFn =
      [OutItem.compileError 5
        "Number of parameters does not match the test function's arity."] :=
  ⟨by decide, by decide,
    C4_header_arity wAttrHdr wFn wTableHdr (by decide) (by decide)⟩

/-- Claim C5: for a table with a correct header but a row at index `i`
whose length differs from the function's parameter count, with every
earlier row matching, expansion emits a failure attributed to that
first offending row's span with the fixed row message; later rows are
not checked (the output does not depend on them). -/
theorem C5_row_arity (attr : List RTok) (f : ItemFn)
    (t : TableStx) (hp : TableStx.parse attr = some t)
    (hc : t.column_names.val.length = f.inputs.length)
    (i : Nat) (r : Spanned (List Expr))
    (hi : t.test_inputs[i]? = some r)
    (hbad : r.val.length ≠ f.inputs.length)
    (hfirst : ∀ r' ∈ t.test_inputs.take i, r'.val.length = f.inputs.length) :
    test_with_parameters attr f =
      [OutItem.compileError r.span
        "This case has the wrong number of arguments."] :=
  twp_row_mismatch attr f t hp hc i r hi hbad hfirst

/-- Witness for C5: a good row, then a bad row at index 1, then another
bad row; the sole output is the error spanned to the index-1 row. -/
theorem C5_witness :
    TableStx.parse wAttrRow = some wTableRow ∧
    wTableRow.column_names.val.length = wFn.inputs.length ∧
    wTableRow.test_inputs[1]? = some ⟨[[Tok.atom "1"]], 22⟩ ∧
    (⟨[[Tok.atom "1"]], 22⟩ : Spanned (List Expr)).val.length ≠ wFn.inputs.length ∧
    (∀ r' ∈ wTableRow.test_inputs.take 1, r'.val.length = wFn.inputs.length) ∧
    test_with_parameters wAttrRow wFn =
      [OutItem.compileError 22 "This case has the wrong number of arguments."] :=
  ⟨by decide, by decide, by decide, by decide, by decide,
    C5_row_arity wAttrRow wFn wTableRow (by decide) (by decide)
      1 ⟨[[Tok.atom "1"]], 22⟩ (by decide) (by decide) (by decide)⟩

/-- Claim C6: a table consisting of a column-name header (of matching
length) and zero rows is valid and expands to zero generated
functions plus the unmodified original function. -/
theorem C6_zero_rows (attr : List RTok) (f : ItemFn)
    (t : TableStx) (hp : TableStx.parse attr = some t)
    (hc : t.column_names.val.length = f.inputs.length)
    (hz : t.test_inputs = []) :
    test_with_parameters attr f = [origItem f] := by
  rw [twp_valid attr f t hp hc (by rw [hz]; intro r hr; simp at hr), hz]
  rfl

/-- Witness for C6: a header-only table against `wFn` yields exactly
the re-emitted original function. -/
theorem C6_witness :
    TableStx.parse wAttrZero = some wTableZero ∧
    wTableZero.column_names.val.length = wFn.inputs.length ∧
    wTableZero.test_inputs = [] ∧
    test_with_parameters wAttrZero wFn = [origItem wFn] :=
  ⟨by decide, by decide, by decide,
    C6_zero_rows wAttrZero wFn wTableZero (by decide) (by decide) (by decide)⟩

/-- Claim C7: for every valid table, the output re-emits the target
function's declaration unmodified (same name, parameters and body, no
`#[test]` tag) as the first item, before the generated functions and in
the same scope (the same flat output item list), and every generated
case function is individually tagged `#[test]`. -/
theorem C7_frame (attr : List RTok) (f : ItemFn)
    (t : TableStx) (hp : TableStx.parse attr = some t)
    (hc : t.column_names.val.length = f.inputs.length)
    (hr : ∀ r ∈ t.test_inputs, r.val.length = f.inputs.length) :
    (test_with_parameters attr f).head? =
      some (OutItem.fn ⟨false, f.ident, f.inputs, Body.orig f.body⟩) ∧
    ∀ i (r : Spanned (List Expr)), t.test_inputs[i]? = some r →
      ∃ c : OutFn, (test_with_parameters attr f)[i + 1]? = some (OutItem.fn c) ∧
        c.testAttr = true := by
  rw [twp_valid attr f t hp hc hr]
  refine ⟨rfl, ?_⟩
  intro i r hi
  refine ⟨⟨true, f.ident ++ "_case" ++ toString i, [], Body.call f.ident r.val⟩,
    ?_, rfl⟩
  rw [List.getElem?_cons_succ, List.getElem?_map, List.getElem?_enum, hi]
  rfl

/-- Witness for C7 on the spec's example: the untagged unmodified
original leads the output and the case at index 0 is `#[test]`
tagged. -/
theorem C7_witness :
    TableStx.parse wAttr = some wTable ∧
    wTable.column_names.val.length = wFn.inputs.length ∧
    (∀ r ∈ wTable.test_inputs, r.val.length = wFn.inputs.length) ∧
    ((test_with_parameters wAttr wFn).head? =
      some (OutItem.fn ⟨false, wFn.ident, wFn.inputs, Body.orig wFn.body⟩) ∧
    ∀ i (r : Spanned (List Expr)), wTable.test_inputs[i]? = some r →
      ∃ c : OutFn, (test_with_parameters wAttr wFn)[i + 1]? = some (OutItem.fn c) ∧
        c.testAttr = true) :=
  ⟨by decide, by decide, by decide,
    C7_frame wAttr wFn wTable (by decide) (by decide) (by decide)⟩

/-- Claim C8: expansion is a total function into an output stream: for
every attribute payload and function it produces a nonempty output, in
which either no item is an error (the valid case), or the whole output
is one single error item and contains no generated wrappers and no
function items at all. -/
theorem C8_failure_semantics (attr : List RTok) (f : ItemFn) :
    test_with_parameters attr f ≠ [] ∧
    ((∀ o ∈ test_with_parameters attr f, o.isError = false) ∨
      (∃ e : OutItem, e.isError = true ∧ test_with_parameters attr f = [e] ∧
        ∀ c : OutFn, OutItem.fn c ∉ test_with_parameters attr f)) := by
  cases hp : TableStx.parse attr with
  | none =>
    rw [twp_parse_none attr f hp]
    exact ⟨by simp, Or.inr ⟨OutItem.parseError, rfl, rfl, by simp⟩⟩
  | some t =>
    by_cases hc : t.column_names.val.length = f.inputs.length
    · cases hf : t.test_inputs.find?
        (fun args => args.val.length != f.inputs.length) with
      | some r =>
        rw [twp_find_bad attr f t hp hc r hf]
        exact ⟨by simp, Or.inr ⟨OutItem.compileError r.span
          "This case has the wrong number of arguments.", rfl, rfl, by simp⟩⟩
      | none =>
        have hr : ∀ r ∈ t.test_inputs, r.val.length = f.inputs.length := by
          intro r hrm
          have := List.find?_eq_none.mp hf r hrm
          simpa using this
        rw [twp_valid attr f t hp hc hr]
        refine ⟨by simp, Or.inl ?_⟩
        intro o ho
        rcases List.mem_cons.mp ho with h | h
        · subst h; rfl
        · rcases List.mem_map.mp h with ⟨q, _, hqo⟩
          subst hqo; rfl
    · rw [twp_header_mismatch attr f t hp hc]
      exact ⟨by simp, Or.inr ⟨OutItem.compileError t.column_names.span
        "Number of parameters does not match the test function's arity.",
        rfl, rfl, by simp⟩⟩

/-- Claim C9: the table parser accepts a trailing comma inside any
bracketed group, producing the same result as without it; it consumes
one bracket group per row in order until the input is exhausted; and a
separator token between groups is rejected. -/
theorem C9_table_grammar :
    (∀ (α : Type) (p : List Tok → Option α) (inner : List Tok) (xs : List α),
      inner ≠ [] → inner.getLast? ≠ some Tok.comma →
      parseTerminated p inner = some xs →
      parseTerminated p (inner ++ [Tok.comma]) = some xs) ∧
    (∀ gs : List (Nat × List Tok),
      parseRows (gs.map (fun g => RTok.grp g.1 g.2)) =
        gs.foldr (fun g acc =>
          (parseTerminated exprElem g.2).bind (fun es =>
            acc.map (fun rows => ⟨es, g.1⟩ :: rows))) (some [])) ∧
    (∀ (sp : Nat) (hdr : List Tok) (rest : List RTok),
      TableStx.parse (RTok.grp sp hdr :: RTok.comma :: rest) = none) :=
  ⟨fun _ p inner xs h1 h2 h3 => parseTerminated_append_comma p inner xs h1 h2 h3,
   parseRows_map_grp,
   parse_comma_separator⟩

/-- Witness for C9: a trailing comma after one identifier parses the
same; a singleton group list is consumed as one row; a comma between
the header group and a row group is rejected. -/
theorem C9_witness :
    parseTerminated identElem ([Tok.ident "a"] ++ [Tok.comma]) = some ["a"] ∧
    parseRows ([((1 : Nat), [Tok.atom "1"])].map (fun g => RTok.grp g.1 g.2)) =
      [((1 : Nat), [Tok.atom "1"])].foldr (fun g acc =>
        (parseTerminated exprElem g.2).bind (fun es =>
          acc.map (fun rows => ⟨es, g.1⟩ :: rows))) (some []) ∧
    TableStx.parse
      (RTok.grp 0 [Tok.ident "a"] :: RTok.comma :: [RTok.grp 1 [Tok.atom "1"]]) =
      none :=
  ⟨C9_table_grammar.1 String identElem [Tok.ident "a"] ["a"]
      (by decide) (by decide) (by decide),
   C9_table_grammar.2.1 [((1 : Nat), [Tok.atom "1"])],
   C9_table_grammar.2.2 0 [Tok.ident "a"] [RTok.grp 1 [Tok.atom "1"]]⟩

/-- Claim C10: any expression token run — nonempty, with no top-level
comma, otherwise arbitrary (function calls, variable references,
non-constant expressions) — is accepted as a row entry and forwarded
verbatim as the argument of the generated call. -/
theorem C10_any_expression (e : List Tok) (he : e ≠ [])
    (hcm : Tok.comma ∉ e) (f : ItemFn) (hf : f.inputs.length = 1)
    (sp1 sp2 : Nat) (nm : String) :
    test_with_parameters [RTok.grp sp1 [Tok.ident nm], RTok.grp sp2 e] f =
      [origItem f,
       OutItem.fn ⟨true, f.ident ++ "_case" ++ toString 0, [],
         Body.call f.ident [e]⟩] := by
  have hhdr : parseTerminated identElem [Tok.ident nm] = some [nm] := by
    rw [parseTerminated, if_neg (by simp)]
    simp [splitTop, parseSegs, identElem]
  have hrow : parseTerminated exprElem e = some [e] := by
    rw [parseTerminated, if_neg he, splitTop_of_comma_not_mem e he hcm]
    rw [if_neg (by simp [he])]
    simp [parseSegs, exprElem, he]
  have hp : TableStx.parse [RTok.grp sp1 [Tok.ident nm], RTok.grp sp2 e] =
      some ⟨⟨[nm], sp1⟩, [⟨[e], sp2⟩]⟩ := by
    simp [TableStx.parse, parseRows, hhdr, hrow]
  rw [twp_valid _ f _ hp (by simp [hf]) (by simp [hf])]
  rfl

/-- Witness for C10: the non-literal call expression `g (x)` (tokens
`g`, `(x)`) as the single entry of the single row of a one-column
table. -/
theorem C10_witness :
    ([Tok.ident "g", Tok.atom "(x)"] : List Tok) ≠ [] ∧
    Tok.comma ∉ ([Tok.ident "g", Tok.atom "(x)"] : List Tok) ∧
    (⟨"checks", [[Tok.ident "v"]], [Tok.atom "assert"]⟩ : ItemFn).inputs.length = 1 ∧
    test_with_parameters
      [RTok.grp 0 [Tok.ident "args"],
       RTok.grp 1 [Tok.ident "g", Tok.atom "(x)"]]
      ⟨"checks", [[Tok.ident "v"]], [Tok.atom "assert"]⟩ =
      [origItem ⟨"checks", [[Tok.ident "v"]], [Tok.atom "assert"]⟩,
       OutItem.fn ⟨true, "checks" ++ "_case" ++ toString 0, [],
         Body.call "checks" [[Tok.ident "g", Tok.atom "(x)"]]⟩] :=
  ⟨by decide, by decide, by decide,
    C10_any_expression [Tok.ident "g", Tok.atom "(x)"] (by decide) (by decide)
      ⟨"checks", [[Tok.ident "v"]], [Tok.atom "assert"]⟩ (by decide) 0 1 "args"⟩
